import Mathlib

/-!
Shallow embedding of the public surface of the V7 embeddable JavaScript
engine (`src/src/v7.h`).  The repository contains only the public header;
every behaviour below is therefore modelled from the accompanying
specification, as noted on each definition.  Machine words are `Nat`
with explicit bounds; a v-word is a 64-bit NaN-boxed value.
-/

set_option maxHeartbeats 1000000
set_option linter.unusedVariables false

/-- Modelled from the spec: the NaN-boxing tag of a v-word is its top 16
bits (sign, exponent and leading mantissa bits of the IEEE-754 layout). -/
def tagOf (v : Nat) : Nat := v / 2 ^ 48

/-- Modelled from the spec: NaN payload tag reserved for object (and array)
heap references. -/
def tagObject : Nat := 0xFFF1

/-- Modelled from the spec: tag reserved for function-object references. -/
def tagFunction : Nat := 0xFFF2

/-- Modelled from the spec: tag reserved for C-callback values. -/
def tagCFunc : Nat := 0xFFF3

/-- Modelled from the spec: tag reserved for inline short strings
(length at most 5 stored in the 48-bit payload). -/
def tagStrInline : Nat := 0xFFF4

/-- Modelled from the spec: tag reserved for string-heap references. -/
def tagStrHeap : Nat := 0xFFF5

/-- Modelled from the spec: tag reserved for the `undefined` sentinel. -/
def tagUndef : Nat := 0xFFF6

/-- Modelled from the spec: tag reserved for the `null` sentinel. -/
def tagNull : Nat := 0xFFF7

/-- Modelled from the spec: tag reserved for the boolean sentinels. -/
def tagBoolean : Nat := 0xFFF8

/-- Modelled from the spec: tag reserved for foreign (`void *`) values. -/
def tagForeign : Nat := 0xFFF9

/-- Modelled from the spec: the single canonical NaN bit pattern that the
engine keeps as a genuine number; every other NaN payload is reserved as
an engine tag. -/
def canonNaN : Nat := 0x7FF8 * 2 ^ 48

/-- Modelled from the spec: recognise an IEEE-754 NaN bit pattern
(exponent all ones, non-zero mantissa). -/
def isNaNBits (d : Nat) : Bool :=
  decide ((d / 2 ^ 52) % 2 ^ 11 = 0x7FF ∧ d % 2 ^ 52 ≠ 0)

/-- Modelled from the spec: `v7_create_number` stores the double bit
pattern unboxed; NaN inputs are normalised to the canonical NaN so that
the remaining NaN payloads stay available as engine tags. -/
def v7_create_number (d : Nat) : Nat :=
  if isNaNBits d then canonNaN else d

/-- Modelled from the spec: `v7_create_boolean` encodes a C truth value as
the boolean sentinel with payload 0 or 1. -/
def v7_create_boolean (b : Int) : Nat :=
  tagBoolean * 2 ^ 48 + (if b = 0 then 0 else 1)

/-- Modelled from the spec: the `null` primitive v-word. -/
def v7_create_null : Nat := tagNull * 2 ^ 48

/-- Modelled from the spec: the `undefined` primitive v-word. -/
def v7_create_undefined : Nat := tagUndef * 2 ^ 48

/-- Modelled from the spec: `v7_create_cfunction` boxes a C callback
pointer into the 48-bit payload of the cfunction tag. -/
def v7_create_cfunction (f : Nat) : Nat :=
  tagCFunc * 2 ^ 48 + f % 2 ^ 48

/-- Modelled from the spec: `v7_create_foreign` boxes a `void *` pointer
into the 48-bit payload of the foreign tag. -/
def v7_create_foreign (p : Nat) : Nat :=
  tagForeign * 2 ^ 48 + p % 2 ^ 48

/-- Modelled from the spec: `v7_is_object` tests the object tag. -/
def v7_is_object (v : Nat) : Bool := decide (tagOf v = tagObject)

/-- Modelled from the spec: `v7_is_function` tests the function tag. -/
def v7_is_function (v : Nat) : Bool := decide (tagOf v = tagFunction)

/-- Modelled from the spec: `v7_is_string` holds for both string
variants (inline short string and string-heap reference). -/
def v7_is_string (v : Nat) : Bool :=
  decide (tagOf v = tagStrInline ∨ tagOf v = tagStrHeap)

/-- Modelled from the spec: `v7_is_boolean` tests the boolean tag. -/
def v7_is_boolean (v : Nat) : Bool := decide (tagOf v = tagBoolean)

/-- Modelled from the spec: `v7_is_number` holds exactly for the v-words
whose top bits lie outside the reserved tag range. -/
def v7_is_number (v : Nat) : Bool :=
  decide (tagOf v < tagObject ∨ tagForeign < tagOf v)

/-- Modelled from the spec: `v7_is_null` tests the null sentinel. -/
def v7_is_null (v : Nat) : Bool := decide (tagOf v = tagNull)

/-- Modelled from the spec: `v7_is_undefined` tests the undefined
sentinel. -/
def v7_is_undefined (v : Nat) : Bool := decide (tagOf v = tagUndef)

/-- Modelled from the spec: `v7_is_cfunction` tests the cfunction tag. -/
def v7_is_cfunction (v : Nat) : Bool := decide (tagOf v = tagCFunc)

/-- Modelled from the spec: `v7_is_foreign` tests the foreign tag. -/
def v7_is_foreign (v : Nat) : Bool := decide (tagOf v = tagForeign)

/-- Modelled from the spec: `v7_to_number` reads the v-word back as the
double bit pattern (numbers are stored unboxed). -/
def v7_to_number (v : Nat) : Nat := v

/-- Modelled from the spec: `v7_to_boolean` returns the stored payload,
0 for `false` and non-0 for `true`. -/
def v7_to_boolean (v : Nat) : Nat := v % 2 ^ 48

/-- Modelled from the spec: `v7_to_foreign` extracts the boxed pointer. -/
def v7_to_foreign (v : Nat) : Nat := v % 2 ^ 48

/-- Modelled from the spec: `v7_to_cfunction` extracts the boxed C
callback pointer. -/
def v7_to_cfunction (v : Nat) : Nat := v % 2 ^ 48

/-- Modelled from the spec: base-256 little-endian packing of string
bytes into a payload number (used for inline short strings). -/
def byteEnc : List Nat → Nat
  | [] => 0
  | b :: bs => b + 256 * byteEnc bs

/-- Modelled from the spec: unpacking of `len` bytes from a payload
number, inverse of `byteEnc`. -/
def byteDec : Nat → Nat → List Nat
  | _, 0 => []
  | n, k + 1 => n % 256 :: byteDec (n / 256) k

/-- Modelled from the spec: `strlen` over the modelled byte string, the
number of bytes before the first NUL. -/
def strlenM : List Nat → Nat
  | [] => 0
  | b :: bs => if b = 0 then 0 else 1 + strlenM bs

/-- Modelled from the spec: an object cell.  Arrays are objects carrying
an element vector; every object has a prototype reference
(`none` stands for the `null` prototype). -/
structure ObjRec where
  isArr : Bool
  elems : List Nat
  proto : Option Nat
deriving DecidableEq

/-- Modelled from the spec: a function record created by
`v7_create_function`, holding the C callback pointer and the declared
argument count. -/
structure FuncRec where
  cfn : Nat
  nargs : Int
deriving DecidableEq

/-- Status enumeration mirroring `enum v7_err` of `src/src/v7.h`. -/
inductive V7Err where
  | ok
  | syntaxError
  | execException
  | stackOverflow
  | astTooLarge
  | invalidArg
deriving DecidableEq

/-- Modelled from the spec: the engine instance.  Every piece of mutable
state (heaps, parser-error buffer, exception slot, root registrations)
lives on the engine; there is no process-wide state.  `cfuncSem` gives
the modelled semantics of host C callbacks: from callback pointer,
receiver and argument list to a thrown? flag and a result v-word. -/
structure VM where
  objs : List ObjRec
  funcs : List FuncRec
  strs : List (List Nat)
  globalObj : Nat
  parserError : String
  excSlot : Option Nat
  owned : List Nat
  cfuncSem : Nat → Nat → List Nat → Bool × Nat

/-- Modelled from the spec: `v7_create` returns a fresh engine whose heap
holds only the global object and whose parser-error buffer is empty. -/
def v7_create : VM :=
  ⟨[⟨false, [], none⟩], [], [], tagObject * 2 ^ 48, "", none, [],
    fun _ _ _ => (false, tagUndef * 2 ^ 48)⟩

/-- Modelled from the spec: `v7_create_object` allocates a fresh empty
object cell and returns its tagged reference. -/
def v7_create_object (st : VM) : VM × Nat :=
  ({ st with objs := st.objs ++ [⟨false, [], none⟩] },
    tagObject * 2 ^ 48 + st.objs.length % 2 ^ 48)

/-- Modelled from the spec: `v7_create_array` allocates a fresh empty
array object and returns its tagged reference. -/
def v7_create_array (st : VM) : VM × Nat :=
  ({ st with objs := st.objs ++ [⟨true, [], none⟩] },
    tagObject * 2 ^ 48 + st.objs.length % 2 ^ 48)

/-- Modelled from the spec: `v7_create_function` allocates a function
record for callback `f` with `nargs` arguments and returns its tagged
reference. -/
def v7_create_function (st : VM) (f : Nat) (nargs : Int) : VM × Nat :=
  ({ st with funcs := st.funcs ++ [⟨f, nargs⟩] },
    tagFunction * 2 ^ 48 + st.funcs.length % 2 ^ 48)

/-- Modelled from the spec: `v7_create_string`.  Length `~0` (all bits of
a 64-bit `size_t` set) asks the engine to use `strlen(str)`; otherwise
exactly the first `len` bytes are used, embedded NULs included.  Strings
of at most 5 bytes are packed inline into the payload; longer strings go
to the string heap.  The `copy` flag only governs byte ownership in the
C engine and does not change the resulting value. -/
def v7_create_string (st : VM) (str : List Nat) (len : Nat) (copy : Bool) :
    VM × Nat :=
  let efl := if len = 2 ^ 64 - 1 then strlenM str else len
  let bs := str.take efl
  if efl ≤ 5 then
    (st, tagStrInline * 2 ^ 48 + (efl + 8 * byteEnc bs))
  else
    ({ st with strs := st.strs ++ [bs] },
      tagStrHeap * 2 ^ 48 + st.strs.length % 2 ^ 48)

/-- Modelled from the spec: `v7_to_string` recovers the byte content and
length of a string v-word (inline payload or string-heap lookup). -/
def v7_to_string (st : VM) (v : Nat) : Option (List Nat × Nat) :=
  if tagOf v = tagStrInline then
    some (byteDec (v % 2 ^ 48 / 8) (v % 2 ^ 48 % 8), v % 2 ^ 48 % 8)
  else if tagOf v = tagStrHeap then
    match st.strs.get? (v % 2 ^ 48) with
    | some bs => some (bs, bs.length)
    | none => none
  else none

/-- Modelled from the spec: resolve a v-word to the array object cell it
references, if any. -/
def arrRec (st : VM) (v : Nat) : Option ObjRec :=
  if v7_is_object v then
    match st.objs.get? (v % 2 ^ 48) with
    | some o => if o.isArr then some o else none
    | none => none
  else none

/-- Modelled from the spec: `v7_array_length` returns the length of the
referenced array, 0 when the value is not an array. -/
def v7_array_length (st : VM) (arr : Nat) : Nat :=
  match arrRec st arr with
  | some o => o.elems.length
  | none => 0

/-- Modelled from the spec: `v7_array_get` is total — an out-of-bounds
index (or a non-array value) yields the `undefined` v-word. -/
def v7_array_get (st : VM) (arr : Nat) (i : Nat) : Nat :=
  match arrRec st arr with
  | some o => o.elems.getD i v7_create_undefined
  | none => v7_create_undefined

/-- Modelled from the spec: `v7_own` registers the address of a host-held
v-word cell; registrations compose as a stack (most recent first). -/
def v7_own (st : VM) (a : Nat) : VM :=
  { st with owned := a :: st.owned }

/-- Modelled from the spec: `v7_disown` removes the most recent
registration of the given address and reports success (1) or the absence
of any registration (0). -/
def v7_disown (st : VM) (a : Nat) : Nat × VM :=
  if a ∈ st.owned then (1, { st with owned := st.owned.erase a }) else (0, st)

/-- Modelled from the spec: a host-visible sequence of root-registration
operations. -/
inductive RootOp where
  | own (a : Nat)
  | disown (a : Nat)
deriving DecidableEq

/-- Modelled from the spec: run a sequence of own/disown operations. -/
def runRoot (st : VM) : List RootOp → VM
  | [] => st
  | RootOp.own a :: t => runRoot (v7_own st a) t
  | RootOp.disown a :: t => runRoot (v7_disown st a).snd t

/-- Modelled from the spec: the number of registrations of address `a`
still active after a trace, starting from `c` active registrations — an
own adds one, a disown removes one when one is present. -/
def activeRegs (c : Nat) (a : Nat) : List RootOp → Nat
  | [] => c
  | RootOp.own b :: t => activeRegs (if b = a then c + 1 else c) a t
  | RootOp.disown b :: t => activeRegs (if b = a then c - 1 else c) a t

/-- Modelled from the spec: prototype pointer of object cell `i`
(`none` for the null prototype or an unallocated index). -/
def protoStep (m : List ObjRec) (i : Nat) : Option Nat :=
  match m.get? i with
  | some o => o.proto
  | none => none

/-- Modelled from the spec: walk `k` prototype-chain steps from an
optional current object (`none` means the chain already ended at null). -/
def protoWalk (m : List ObjRec) : Nat → Option Nat → Option Nat
  | 0, s => s
  | _ + 1, none => none
  | k + 1, some i => protoWalk m k (protoStep m i)

/-- The prototype chain of `i` reaches `j` (in zero or more steps). -/
def PReaches (m : List ObjRec) (i j : Nat) : Prop :=
  ∃ k, protoWalk m k (some i) = some j

/-- The prototype chain of `i` terminates at null. -/
def PTerm (m : List ObjRec) (i : Nat) : Prop :=
  ∃ k, protoWalk m k (some i) = none

/-- Every prototype chain of the heap terminates at null. -/
def ProtoWF (m : List ObjRec) : Prop := ∀ i, PTerm m i

/-- Modelled from the spec: executable bounded check whether the chain of
`i` reaches `o` within `k` steps; with fuel `m.length` this decides
`PReaches` (chains that reach a node do so within `m.length` steps). -/
def reachChk (m : List ObjRec) : Nat → Nat → Nat → Bool
  | 0, i, o => i == o
  | k + 1, i, o =>
    i == o ||
      match protoStep m i with
      | some j => reachChk m k j o
      | none => false

/-- Modelled from the spec: encode an optional prototype index as the
v-word `v7_set_proto` returns (object reference or `null`). -/
def encodeProtoVal : Option Nat → Nat
  | some j => tagObject * 2 ^ 48 + j
  | none => tagNull * 2 ^ 48

/-- Modelled from the spec: `v7_set_proto` stores a new prototype and
returns the old one, but rejects (returning `undefined` and leaving the
heap unchanged) a prototype whose own chain already reaches the object;
an invalid object argument also yields `undefined`.  A non-object
prototype value sets the null prototype. -/
def v7_set_proto (st : VM) (obj proto : Nat) : Nat × VM :=
  if v7_is_object obj then
    match st.objs.get? (obj % 2 ^ 48) with
    | none => (v7_create_undefined, st)
    | some r =>
      if v7_is_object proto then
        if reachChk st.objs st.objs.length (proto % 2 ^ 48) (obj % 2 ^ 48) then
          (v7_create_undefined, st)
        else
          (encodeProtoVal r.proto,
            { st with
              objs := st.objs.set (obj % 2 ^ 48)
                ⟨r.isArr, r.elems, some (proto % 2 ^ 48)⟩ })
      else
        (encodeProtoVal r.proto,
          { st with
            objs := st.objs.set (obj % 2 ^ 48) ⟨r.isArr, r.elems, none⟩ })
  else (v7_create_undefined, st)

/-- Modelled from the spec: heap-shaping operations used to state that
prototype chains stay acyclic under any operation sequence. -/
inductive HeapOp where
  | newObj
  | newArr
  | setProto (obj proto : Nat)

/-- Modelled from the spec: run a sequence of heap-shaping operations. -/
def runHeapOps (st : VM) : List HeapOp → VM
  | [] => st
  | HeapOp.newObj :: t => runHeapOps (v7_create_object st).fst t
  | HeapOp.newArr :: t => runHeapOps (v7_create_array st).fst t
  | HeapOp.setProto o p :: t => runHeapOps (v7_set_proto st o p).snd t

/-- Modelled from the spec: the tokens of the modelled script subset
(numeric literals, additive and multiplicative operators, parentheses and
the `throw` statement keyword). -/
inductive Tok where
  | num (n : Nat)
  | plus
  | star
  | lpar
  | rpar
  | throwTk
deriving DecidableEq

/-- Modelled from the spec: scan a run of decimal digits. -/
def lexNum (acc : Nat) : List Char → Nat × List Char
  | [] => (acc, [])
  | c :: cs =>
    if c.isDigit then lexNum (acc * 10 + (c.toNat - 48)) cs else (acc, c :: cs)

/-- Modelled from the spec: fueled tokenizer for the modelled subset;
`none` reports a scan error.  The fuel only bounds recursion and is
always sufficient when instantiated with the input length. -/
def tokenizeF : Nat → List Char → Option (List Tok)
  | 0, _ => none
  | _ + 1, [] => some []
  | fuel + 1, c :: cs =>
    if c = ' ' then tokenizeF fuel cs
    else if c = '+' then (tokenizeF fuel cs).map (fun ts => Tok.plus :: ts)
    else if c = '*' then (tokenizeF fuel cs).map (fun ts => Tok.star :: ts)
    else if c = '(' then (tokenizeF fuel cs).map (fun ts => Tok.lpar :: ts)
    else if c = ')' then (tokenizeF fuel cs).map (fun ts => Tok.rpar :: ts)
    else if c.isDigit then
      (tokenizeF fuel (lexNum (c.toNat - 48) cs).snd).map
        (fun ts => Tok.num (lexNum (c.toNat - 48) cs).fst :: ts)
    else if c = 't' then
      match cs with
      | 'h' :: 'r' :: 'o' :: 'w' :: rest =>
        (tokenizeF fuel rest).map (fun ts => Tok.throwTk :: ts)
      | _ => none
    else none

/-- Modelled from the spec: tokenize a source string. -/
def tokenize (l : List Char) : Option (List Tok) :=
  tokenizeF (l.length + 1) l

/-- Modelled from the spec: the compact AST of the modelled subset. -/
inductive Ast where
  | lit (n : Nat)
  | add (a b : Ast)
  | mul (a b : Ast)
  | thr (a : Ast)
deriving DecidableEq

/-- Modelled from the spec: parser state of the fueled recursive-descent
parser (expression, expression suffix, term, term suffix, factor). -/
inductive PMode where
  | expr
  | exprSfx (a : Ast)
  | term
  | termSfx (a : Ast)
  | factor

/-- Modelled from the spec: one recursive-descent parser over the token
list, written with explicit fuel so that recursion is structural. -/
def parseStep : Nat → PMode → List Tok → Option (Ast × List Tok)
  | 0, _, _ => none
  | fuel + 1, PMode.expr, ts =>
    match parseStep fuel PMode.term ts with
    | some (a, ts1) => parseStep fuel (PMode.exprSfx a) ts1
    | none => none
  | fuel + 1, PMode.exprSfx a, Tok.plus :: ts =>
    match parseStep fuel PMode.term ts with
    | some (b, ts1) => parseStep fuel (PMode.exprSfx (Ast.add a b)) ts1
    | none => none
  | _ + 1, PMode.exprSfx a, ts => some (a, ts)
  | fuel + 1, PMode.term, ts =>
    match parseStep fuel PMode.factor ts with
    | some (a, ts1) => parseStep fuel (PMode.termSfx a) ts1
    | none => none
  | fuel + 1, PMode.termSfx a, Tok.star :: ts =>
    match parseStep fuel PMode.factor ts with
    | some (b, ts1) => parseStep fuel (PMode.termSfx (Ast.mul a b)) ts1
    | none => none
  | _ + 1, PMode.termSfx a, ts => some (a, ts)
  | _ + 1, PMode.factor, Tok.num n :: ts => some (Ast.lit n, ts)
  | fuel + 1, PMode.factor, Tok.lpar :: ts =>
    match parseStep fuel PMode.expr ts with
    | some (a, Tok.rpar :: ts1) => some (a, ts1)
    | _ => none
  | _ + 1, PMode.factor, _ => none

/-- Modelled from the spec: parse a whole source text into an AST;
`none` reports a syntax error (scan error, malformed program or
trailing tokens). -/
def parseRaw (src : String) : Option Ast :=
  match tokenize src.data with
  | none => none
  | some (Tok.throwTk :: rest) =>
    match parseStep (4 * (rest.length + 1)) PMode.expr rest with
    | some (a, []) => some (Ast.thr a)
    | _ => none
  | some ts =>
    match parseStep (4 * (ts.length + 1)) PMode.expr ts with
    | some (a, []) => some a
    | _ => none

/-- Modelled from the spec: serialized size of an AST node — a tag byte,
the fixed payload and the inlined 16-bit child offsets. -/
def astSize : Ast → Nat
  | Ast.lit _ => 9
  | Ast.add a b => 5 + astSize a + astSize b
  | Ast.mul a b => 5 + astSize a + astSize b
  | Ast.thr a => 3 + astSize a

/-- Modelled from the spec: outcome of parsing a source text — a syntax
error with its message, an AST whose offsets would not fit the 16-bit
range, or a well-formed AST. -/
inductive POut where
  | synErr (msg : String)
  | tooLarge
  | okAst (a : Ast)
deriving DecidableEq

/-- Modelled from the spec: full parser front-end.  A source that scans
and parses but whose AST exceeds the 16-bit offset range fails with the
too-large outcome instead of an AST. -/
def parseProgram (src : String) : POut :=
  match parseRaw src with
  | none => POut.synErr "syntax error"
  | some a => if 65535 < astSize a then POut.tooLarge else POut.okAst a

/-- Modelled from the spec: interpreter outcome — a computed value or a
thrown value (numbers in the modelled subset). -/
inductive EOut where
  | val (n : Nat)
  | exn (n : Nat)
deriving DecidableEq

/-- Modelled from the spec: AST-walking evaluator; `throw` raises the
value of its operand and exceptions propagate outward. -/
def evalAst : Ast → EOut
  | Ast.lit n => EOut.val n
  | Ast.add a b =>
    match evalAst a with
    | EOut.exn v => EOut.exn v
    | EOut.val x =>
      match evalAst b with
      | EOut.exn v => EOut.exn v
      | EOut.val y => EOut.val (x + y)
  | Ast.mul a b =>
    match evalAst a with
    | EOut.exn v => EOut.exn v
    | EOut.val x =>
      match evalAst b with
      | EOut.exn v => EOut.exn v
      | EOut.val y => EOut.val (x * y)
  | Ast.thr a =>
    match evalAst a with
    | EOut.exn v => EOut.exn v
    | EOut.val x => EOut.exn x

/-- Modelled from the spec: fueled base-2 logarithm (the fuel only
bounds recursion; `log2F n n` is the floor logarithm for positive n). -/
def log2F : Nat → Nat → Nat
  | 0, _ => 0
  | fuel + 1, n => if n ≤ 1 then 0 else 1 + log2F fuel (n / 2)

/-- Modelled from the spec: IEEE-754 double bit pattern of a natural
number (exact on the 53-bit range, truncating above it); used by the
modelled interpreter to box numeric results. -/
def natToDoubleBits (n : Nat) : Nat :=
  if n = 0 then 0
  else
    let k := log2F n n
    if k ≤ 52 then (1023 + k) * 2 ^ 52 + (n - 2 ^ k) * 2 ^ (52 - k)
    else (1023 + k) * 2 ^ 52 + (n - 2 ^ k) / 2 ^ (k - 52)

/-- Modelled from the spec: `v7_exec`.  A syntax error populates the
engine's parser-error buffer, leaves the exception slot alone and yields
`undefined`; an oversized AST returns the too-large status directly with
the engine untouched; otherwise the AST is evaluated and a thrown value
is delivered as an exec exception with the value in the result. -/
def v7_exec (st : VM) (src : String) : V7Err × VM × Nat :=
  match parseProgram src with
  | POut.synErr m => (V7Err.syntaxError, { st with parserError := m }, v7_create_undefined)
  | POut.tooLarge => (V7Err.astTooLarge, st, v7_create_undefined)
  | POut.okAst a =>
    match evalAst a with
    | EOut.val n => (V7Err.ok, st, v7_create_number (natToDoubleBits n))
    | EOut.exn n =>
      (V7Err.execException,
        { st with excSlot := some (v7_create_number (natToDoubleBits n)) },
        v7_create_number (natToDoubleBits n))

/-- Modelled from the spec: `v7_get_parser_error` reads the engine's
parser-error buffer. -/
def v7_get_parser_error (st : VM) : String := st.parserError

/-- Modelled from the spec: extract the argument list `v7_apply` passes
to the callee — the empty list for `undefined`, the elements of an array
value, and no list at all (a precondition violation) otherwise. -/
def extractArgs (st : VM) (args : Nat) : Option (List Nat) :=
  if args = v7_create_undefined then some []
  else
    match arrRec st args with
    | some o => some o.elems
    | none => none

/-- Modelled from the spec: `v7_apply` calls a function value with a
receiver and an arguments value (`undefined` or an array).  A null or
undefined receiver is replaced by the global object; a callback that
throws leaves the thrown value in the exception slot and reports an exec
exception; precondition violations report `V7_INVALID_ARG` directly. -/
def v7_apply (st : VM) (func this args : Nat) : V7Err × Nat × VM :=
  match extractArgs st args with
  | none => (V7Err.invalidArg, v7_create_undefined, st)
  | some argl =>
    let rcvr :=
      if this = v7_create_undefined ∨ this = v7_create_null then st.globalObj
      else this
    if v7_is_function func then
      match st.funcs.get? (func % 2 ^ 48) with
      | some fr =>
        let r := st.cfuncSem fr.cfn rcvr argl
        if r.fst then (V7Err.execException, r.snd, { st with excSlot := some r.snd })
        else (V7Err.ok, r.snd, st)
      | none => (V7Err.invalidArg, v7_create_undefined, st)
    else if v7_is_cfunction func then
      let r := st.cfuncSem (func % 2 ^ 48) rcvr argl
      if r.fst then (V7Err.execException, r.snd, { st with excSlot := some r.snd })
      else (V7Err.ok, r.snd, st)
    else (V7Err.invalidArg, v7_create_undefined, st)

/-- The value `args` is an empty array of the engine `st`. -/
def IsEmptyArr (st : VM) (v : Nat) : Prop :=
  ∃ o, arrRec st v = some o ∧ o.elems = []

mutual
/-- Modelled from the spec: a structural JSON-representable value
(mutually with lists of values and objects as key/value sequences). -/
inductive JVal where
  | jnull
  | jbool (b : Bool)
  | jnum (n : Int)
  | jstr (s : String)
  | jarr (xs : JList)
  | jobj (xs : JObj)
inductive JList where
  | nil
  | cons (v : JVal) (rest : JList)
inductive JObj where
  | nil
  | cons (k : String) (v : JVal) (rest : JObj)
end

/-- Modelled from the spec: hexadecimal digit character. -/
def hexDig (n : Nat) : Char :=
  if n < 10 then Char.ofNat (48 + n) else Char.ofNat (87 + n)

/-- Modelled from the spec: JSON escaping of one character — quotes and
backslashes are escaped, control characters become `u00XX` escapes. -/
def escChar (c : Char) : List Char :=
  if c = Char.ofNat 34 then [Char.ofNat 92, Char.ofNat 34]
  else if c = Char.ofNat 92 then [Char.ofNat 92, Char.ofNat 92]
  else if c.toNat < 32 then
    [Char.ofNat 92, 'u', '0', '0', hexDig (c.toNat / 16), hexDig (c.toNat % 16)]
  else [c]

/-- Modelled from the spec: JSON escaping of a string body. -/
def escStr (s : String) : List Char :=
  s.data.foldr (fun c acc => escChar c ++ acc) []

mutual
/-- Modelled from the spec: render a JSON value (and its two list
shapes) as the exact character sequence `v7_to_json` generates. -/
def jvalStr : JVal → List Char
  | JVal.jnull => 'n' :: 'u' :: 'l' :: 'l' :: []
  | JVal.jbool true => 't' :: 'r' :: 'u' :: 'e' :: []
  | JVal.jbool false => 'f' :: 'a' :: 'l' :: 's' :: 'e' :: []
  | JVal.jnum n => (toString n).data
  | JVal.jstr s => Char.ofNat 34 :: (escStr s ++ [Char.ofNat 34])
  | JVal.jarr xs => '[' :: (jlistStr xs ++ [']'])
  | JVal.jobj xs => Char.ofNat 123 :: (jobjStr xs ++ [Char.ofNat 125])
def jlistStr : JList → List Char
  | JList.nil => []
  | JList.cons v JList.nil => jvalStr v
  | JList.cons v (JList.cons w r) =>
    jvalStr v ++ ',' :: jlistStr (JList.cons w r)
def jobjStr : JObj → List Char
  | JObj.nil => []
  | JObj.cons k v JObj.nil =>
    Char.ofNat 34 :: escStr k ++ Char.ofNat 34 :: ':' :: jvalStr v
  | JObj.cons k v (JObj.cons k2 w r) =>
    (Char.ofNat 34 :: escStr k ++ Char.ofNat 34 :: ':' :: jvalStr v) ++
      ',' :: jobjStr (JObj.cons k2 w r)
end

/-- Modelled from the spec: `v7_to_json` renders the value NUL-terminated
into the caller's buffer when `buf_len` suffices and returns the caller's
buffer; otherwise it allocates a large-enough buffer and returns that
(a pointer different from `buf`, to be freed by the caller).  The first
component records whether the caller's buffer was returned; the second is
the byte sequence written. -/
def v7_to_json (st : VM) (v : JVal) (buf_len : Nat) : Bool × List Char :=
  let s := jvalStr v
  if s.length + 1 ≤ buf_len then (true, s ++ [Char.ofNat 0])
  else (false, s ++ [Char.ofNat 0])

/-- Modelled from the spec: the engine operations of the embedding
surface, used to state engine-instance isolation. -/
inductive EngOp where
  | exec (src : String)
  | own (a : Nat)
  | disown (a : Nat)
  | mkObject
  | mkArray
  | mkString (bytes : List Nat) (len : Nat) (copy : Bool)
  | setProto (obj proto : Nat)
  | applyFn (f this args : Nat)

/-- Modelled from the spec: apply one embedding-surface operation to one
engine; every operation takes the engine as its first argument and
returns the updated engine. -/
def applyEngineOp (op : EngOp) (e : VM) : VM :=
  match op with
  | EngOp.exec src => (v7_exec e src).snd.fst
  | EngOp.own a => v7_own e a
  | EngOp.disown a => (v7_disown e a).snd
  | EngOp.mkObject => (v7_create_object e).fst
  | EngOp.mkArray => (v7_create_array e).fst
  | EngOp.mkString b l c => (v7_create_string e b l c).fst
  | EngOp.setProto o p => (v7_set_proto e o p).snd
  | EngOp.applyFn f t a => (v7_apply e f t a).snd.snd

/-- Modelled from the spec: a collection of independent engine instances;
running an operation on instance `i` touches only that instance (there is
no process-wide state to share). -/
def runEngineOpAt (ps : List VM) (i : Nat) (op : EngOp) : List VM :=
  match ps.get? i with
  | some e => ps.set i (applyEngineOp op e)
  | none => ps

/-- The list of the nine engine-independent type predicates applied to a
v-word, in the order of the claim. -/
def predVec (v : Nat) : List Bool :=
  [v7_is_object v, v7_is_function v, v7_is_string v, v7_is_boolean v,
    v7_is_number v, v7_is_null v, v7_is_undefined v, v7_is_cfunction v,
    v7_is_foreign v]

theorem tag_encode (t p : Nat) (h : p < 2 ^ 48) : tagOf (t * 2 ^ 48 + p) = t := by
  unfold tagOf
  have e : (2 : Nat) ^ 48 = 281474976710656 := by norm_num
  rw [e] at h ⊢
  omega

theorem payload_encode (t p : Nat) (h : p < 2 ^ 48) : (t * 2 ^ 48 + p) % 2 ^ 48 = p := by
  have e : (2 : Nat) ^ 48 = 281474976710656 := by norm_num
  rw [e] at h ⊢
  omega

theorem pow48_pos : 0 < 2 ^ 48 := by norm_num

theorem number_tag_range (d : Nat) (h : isNaNBits d = false) :
    tagOf d < tagObject ∨ tagForeign < tagOf d := by
  have h2 : ¬((d / 2 ^ 52) % 2 ^ 11 = 0x7FF ∧ d % 2 ^ 52 ≠ 0) := by
    simpa [isNaNBits] using h
  unfold tagOf tagObject tagForeign
  have e48 : (2 : Nat) ^ 48 = 281474976710656 := by norm_num
  have e52 : (2 : Nat) ^ 52 = 4503599627370496 := by norm_num
  have e11 : (2 : Nat) ^ 11 = 2048 := by norm_num
  rw [e48]
  rw [e52, e11] at h2
  omega

theorem byteEnc_lt (bs : List Nat) (h : ∀ b ∈ bs, b < 256) :
    byteEnc bs < 256 ^ bs.length := by
  induction bs with
  | nil => simp [byteEnc]
  | cons b t ih =>
    have hb : b < 256 := h b (by simp)
    have ht := ih (fun x hx => h x (by simp [hx]))
    simp only [byteEnc, List.length_cons, pow_succ]
    calc b + 256 * byteEnc t < 256 + 256 * byteEnc t := by omega
    _ = 256 * (byteEnc t + 1) := by ring
    _ ≤ 256 * 256 ^ t.length := by
        have : byteEnc t + 1 ≤ 256 ^ t.length := ht
        exact Nat.mul_le_mul_left 256 this
    _ = 256 ^ t.length * 256 := by ring

theorem byteDec_enc (bs : List Nat) (h : ∀ b ∈ bs, b < 256) :
    byteDec (byteEnc bs) bs.length = bs := by
  induction bs with
  | nil => simp [byteEnc, byteDec]
  | cons b t ih =>
    have hb : b < 256 := h b (by simp)
    have ht := ih (fun x hx => h x (by simp [hx]))
    simp only [byteEnc, List.length_cons, byteDec]
    have h1 : (b + 256 * byteEnc t) % 256 = b := by omega
    have h2 : (b + 256 * byteEnc t) / 256 = byteEnc t := by omega
    rw [h1, h2, ht]

theorem strlenM_le (bs : List Nat) : strlenM bs ≤ bs.length := by
  induction bs with
  | nil => simp [strlenM]
  | cons b t ih =>
    by_cases hb : b = 0 <;> simp [strlenM, hb] <;> omega

theorem string_payload_lt (efl : Nat) (bs : List Nat) (h5 : efl ≤ 5)
    (hlen : bs.length = efl) (hb : ∀ b ∈ bs, b < 256) :
    efl + 8 * byteEnc bs < 2 ^ 48 := by
  have h1 : byteEnc bs < 256 ^ bs.length := byteEnc_lt bs hb
  have h2 : (256 : Nat) ^ bs.length ≤ 256 ^ 5 := by
    apply Nat.pow_le_pow_right (by norm_num)
    omega
  have : (256 : Nat) ^ 5 = 1099511627776 := by norm_num
  have e : (2 : Nat) ^ 48 = 281474976710656 := by norm_num
  omega

theorem create_string_to_string (st : VM) (str : List Nat) (len : Nat)
    (copy : Bool) (hlen : len ≤ str.length) (hsent : len ≠ 2 ^ 64 - 1)
    (hb : ∀ b ∈ str, b < 256) (hheap : st.strs.length < 2 ^ 48) :
    v7_to_string (v7_create_string st str len copy).fst
        (v7_create_string st str len copy).snd =
      some (str.take len, len) := by
  have htk : (str.take len).length = len := by
    rw [List.length_take]
    omega
  have hbtk : ∀ b ∈ str.take len, b < 256 :=
    fun b hbmem => hb b (List.take_subset _ _ hbmem)
  unfold v7_create_string
  simp only [hsent, if_false, ite_false]
  by_cases h5 : len ≤ 5
  · have hpl : len + 8 * byteEnc (str.take len) < 2 ^ 48 :=
      string_payload_lt len (str.take len) h5 htk hbtk
    simp only [h5, if_true, ite_true]
    unfold v7_to_string
    rw [tag_encode _ _ hpl, payload_encode _ _ hpl]
    have hm8 : (len + 8 * byteEnc (str.take len)) % 8 = len := by omega
    have hd8 : (len + 8 * byteEnc (str.take len)) / 8 = byteEnc (str.take len) := by
      omega
    simp only [tagStrInline, hm8, hd8]
    have hdec : byteDec (byteEnc (str.take len)) len = str.take len := by
      have h3 := byteDec_enc (str.take len) hbtk
      rwa [htk] at h3
    simp [hdec]
  · simp only [h5, if_false, ite_false]
    unfold v7_to_string
    have hlt : st.strs.length % 2 ^ 48 < 2 ^ 48 := Nat.mod_lt _ pow48_pos
    rw [tag_encode _ _ hlt, payload_encode _ _ hlt]
    have hm : st.strs.length % 2 ^ 48 = st.strs.length := Nat.mod_eq_of_lt hheap
    rw [hm, List.get?_concat_length]
    have h1 : tagStrHeap ≠ tagStrInline := by norm_num [tagStrHeap, tagStrInline]
    simp [h1, htk]

theorem predVec_object (v : Nat) (h : tagOf v = tagObject) :
    predVec v = [true, false, false, false, false, false, false, false, false] := by
  simp only [tagObject] at h
  simp only [predVec, v7_is_object, v7_is_function, v7_is_string, v7_is_boolean,
    v7_is_number, v7_is_null, v7_is_undefined, v7_is_cfunction, v7_is_foreign,
    tagObject, tagFunction, tagCFunc, tagStrInline, tagStrHeap, tagUndef, tagNull,
    tagBoolean, tagForeign, List.cons.injEq, eq_self_iff_true, and_true,
    decide_eq_true_eq, decide_eq_false_iff_not]
  omega

theorem predVec_function (v : Nat) (h : tagOf v = tagFunction) :
    predVec v = [false, true, false, false, false, false, false, false, false] := by
  simp only [tagFunction] at h
  simp only [predVec, v7_is_object, v7_is_function, v7_is_string, v7_is_boolean,
    v7_is_number, v7_is_null, v7_is_undefined, v7_is_cfunction, v7_is_foreign,
    tagObject, tagFunction, tagCFunc, tagStrInline, tagStrHeap, tagUndef, tagNull,
    tagBoolean, tagForeign, List.cons.injEq, eq_self_iff_true, and_true,
    decide_eq_true_eq, decide_eq_false_iff_not]
  omega

theorem predVec_cfunc (v : Nat) (h : tagOf v = tagCFunc) :
    predVec v = [false, false, false, false, false, false, false, true, false] := by
  simp only [tagCFunc] at h
  simp only [predVec, v7_is_object, v7_is_function, v7_is_string, v7_is_boolean,
    v7_is_number, v7_is_null, v7_is_undefined, v7_is_cfunction, v7_is_foreign,
    tagObject, tagFunction, tagCFunc, tagStrInline, tagStrHeap, tagUndef, tagNull,
    tagBoolean, tagForeign, List.cons.injEq, eq_self_iff_true, and_true,
    decide_eq_true_eq, decide_eq_false_iff_not]
  omega

theorem predVec_string (v : Nat) (h : tagOf v = tagStrInline ∨ tagOf v = tagStrHeap) :
    predVec v = [false, false, true, false, false, false, false, false, false] := by
  simp only [tagStrInline, tagStrHeap] at h
  simp only [predVec, v7_is_object, v7_is_function, v7_is_string, v7_is_boolean,
    v7_is_number, v7_is_null, v7_is_undefined, v7_is_cfunction, v7_is_foreign,
    tagObject, tagFunction, tagCFunc, tagStrInline, tagStrHeap, tagUndef, tagNull,
    tagBoolean, tagForeign, List.cons.injEq, eq_self_iff_true, and_true,
    decide_eq_true_eq, decide_eq_false_iff_not]
  omega

theorem predVec_boolean (v : Nat) (h : tagOf v = tagBoolean) :
    predVec v = [false, false, false, true, false, false, false, false, false] := by
  simp only [tagBoolean] at h
  simp only [predVec, v7_is_object, v7_is_function, v7_is_string, v7_is_boolean,
    v7_is_number, v7_is_null, v7_is_undefined, v7_is_cfunction, v7_is_foreign,
    tagObject, tagFunction, tagCFunc, tagStrInline, tagStrHeap, tagUndef, tagNull,
    tagBoolean, tagForeign, List.cons.injEq, eq_self_iff_true, and_true,
    decide_eq_true_eq, decide_eq_false_iff_not]
  omega

theorem predVec_null (v : Nat) (h : tagOf v = tagNull) :
    predVec v = [false, false, false, false, false, true, false, false, false] := by
  simp only [tagNull] at h
  simp only [predVec, v7_is_object, v7_is_function, v7_is_string, v7_is_boolean,
    v7_is_number, v7_is_null, v7_is_undefined, v7_is_cfunction, v7_is_foreign,
    tagObject, tagFunction, tagCFunc, tagStrInline, tagStrHeap, tagUndef, tagNull,
    tagBoolean, tagForeign, List.cons.injEq, eq_self_iff_true, and_true,
    decide_eq_true_eq, decide_eq_false_iff_not]
  omega

theorem predVec_undef (v : Nat) (h : tagOf v = tagUndef) :
    predVec v = [false, false, false, false, false, false, true, false, false] := by
  simp only [tagUndef] at h
  simp only [predVec, v7_is_object, v7_is_function, v7_is_string, v7_is_boolean,
    v7_is_number, v7_is_null, v7_is_undefined, v7_is_cfunction, v7_is_foreign,
    tagObject, tagFunction, tagCFunc, tagStrInline, tagStrHeap, tagUndef, tagNull,
    tagBoolean, tagForeign, List.cons.injEq, eq_self_iff_true, and_true,
    decide_eq_true_eq, decide_eq_false_iff_not]
  omega

theorem predVec_foreign (v : Nat) (h : tagOf v = tagForeign) :
    predVec v = [false, false, false, false, false, false, false, false, true] := by
  simp only [tagForeign] at h
  simp only [predVec, v7_is_object, v7_is_function, v7_is_string, v7_is_boolean,
    v7_is_number, v7_is_null, v7_is_undefined, v7_is_cfunction, v7_is_foreign,
    tagObject, tagFunction, tagCFunc, tagStrInline, tagStrHeap, tagUndef, tagNull,
    tagBoolean, tagForeign, List.cons.injEq, eq_self_iff_true, and_true,
    decide_eq_true_eq, decide_eq_false_iff_not]
  omega

theorem predVec_number (v : Nat) (h : tagOf v < tagObject ∨ tagForeign < tagOf v) :
    predVec v = [false, false, false, false, true, false, false, false, false] := by
  simp only [tagObject, tagForeign] at h
  simp only [predVec, v7_is_object, v7_is_function, v7_is_string, v7_is_boolean,
    v7_is_number, v7_is_null, v7_is_undefined, v7_is_cfunction, v7_is_foreign,
    tagObject, tagFunction, tagCFunc, tagStrInline, tagStrHeap, tagUndef, tagNull,
    tagBoolean, tagForeign, List.cons.injEq, eq_self_iff_true, and_true,
    decide_eq_true_eq, decide_eq_false_iff_not]
  omega

/-- C1 (amended): every v-word produced by a `create_*` operation
satisfies exactly one predicate of the `is_*` family — witnessed by the
full truth table of the nine predicates — and the corresponding `to_*`
decoder returns the original payload bit-for-bit: numbers bit-equal
except NaN inputs (which decode to the single canonical NaN), booleans
with matching truth value, strings with the same bytes and length,
cfunction and foreign pointers bit-equal. -/
theorem c1_create_is_to_round_trip :
    (∀ st, predVec (v7_create_object st).snd =
      [true, false, false, false, false, false, false, false, false])
    ∧ (∀ st, predVec (v7_create_array st).snd =
      [true, false, false, false, false, false, false, false, false])
    ∧ (∀ st f n, predVec (v7_create_function st f n).snd =
        [false, true, false, false, false, false, false, false, false]
      ∧ (st.funcs.length < 2 ^ 48 →
          (v7_create_function st f n).fst.funcs.get?
              ((v7_create_function st f n).snd % 2 ^ 48) = some ⟨f, n⟩))
    ∧ (∀ f, predVec (v7_create_cfunction f) =
        [false, false, false, false, false, false, false, true, false]
      ∧ (f < 2 ^ 48 → v7_to_cfunction (v7_create_cfunction f) = f))
    ∧ (∀ d, predVec (v7_create_number d) =
        [false, false, false, false, true, false, false, false, false]
      ∧ (isNaNBits d = false → v7_to_number (v7_create_number d) = d)
      ∧ (isNaNBits d = true → v7_to_number (v7_create_number d) = canonNaN))
    ∧ (∀ b : Int, predVec (v7_create_boolean b) =
        [false, false, false, true, false, false, false, false, false]
      ∧ (v7_to_boolean (v7_create_boolean b) ≠ 0 ↔ b ≠ 0))
    ∧ (predVec v7_create_null =
        [false, false, false, false, false, true, false, false, false])
    ∧ (predVec v7_create_undefined =
        [false, false, false, false, false, false, true, false, false])
    ∧ (∀ st str len copy, len ≤ str.length → len ≠ 2 ^ 64 - 1 →
        (∀ b ∈ str, b < 256) → st.strs.length < 2 ^ 48 →
        predVec (v7_create_string st str len copy).snd =
          [false, false, true, false, false, false, false, false, false]
        ∧ v7_to_string (v7_create_string st str len copy).fst
            (v7_create_string st str len copy).snd = some (str.take len, len))
    ∧ (∀ p, predVec (v7_create_foreign p) =
        [false, false, false, false, false, false, false, false, true]
      ∧ (p < 2 ^ 48 → v7_to_foreign (v7_create_foreign p) = p)) := by
  refine ⟨?_, ?_, ?_, ?_, ?_, ?_, ?_, ?_, ?_, ?_⟩
  · intro st
    exact predVec_object _ (tag_encode _ _ (Nat.mod_lt _ pow48_pos))
  · intro st
    exact predVec_object _ (tag_encode _ _ (Nat.mod_lt _ pow48_pos))
  · intro st f n
    refine ⟨predVec_function _ (tag_encode _ _ (Nat.mod_lt _ pow48_pos)), ?_⟩
    intro hlen
    unfold v7_create_function
    rw [payload_encode _ _ (Nat.mod_lt _ pow48_pos), Nat.mod_eq_of_lt hlen,
      List.get?_concat_length]
  · intro f
    refine ⟨predVec_cfunc _ (tag_encode _ _ (Nat.mod_lt _ pow48_pos)), ?_⟩
    intro hf
    unfold v7_to_cfunction v7_create_cfunction
    rw [payload_encode _ _ (Nat.mod_lt _ pow48_pos), Nat.mod_eq_of_lt hf]
  · intro d
    refine ⟨?_, ?_, ?_⟩
    · by_cases hn : isNaNBits d
      · have hc : v7_create_number d = canonNaN := by simp [v7_create_number, hn]
        rw [hc]
        apply predVec_number
        left
        show tagOf canonNaN < tagObject
        norm_num [tagOf, canonNaN, tagObject]
      · have hc : v7_create_number d = d := by simp [v7_create_number, hn]
        rw [hc]
        exact predVec_number d (number_tag_range d (by simpa using hn))
    · intro hn
      simp [v7_create_number, hn, v7_to_number]
    · intro hn
      simp [v7_create_number, hn, v7_to_number]
  · intro b
    have hpl : (if b = 0 then (0 : Nat) else 1) < 2 ^ 48 := by
      split <;> norm_num
    refine ⟨predVec_boolean _ (tag_encode _ _ hpl), ?_⟩
    unfold v7_to_boolean v7_create_boolean
    rw [payload_encode _ _ hpl]
    by_cases hb : b = 0 <;> simp [hb]
  · have h0 : v7_create_null = tagNull * 2 ^ 48 + 0 := by
      simp [v7_create_null]
    exact predVec_null _ (h0 ▸ tag_encode tagNull 0 (by norm_num))
  · have h0 : v7_create_undefined = tagUndef * 2 ^ 48 + 0 := by
      simp [v7_create_undefined]
    exact predVec_undef _ (h0 ▸ tag_encode tagUndef 0 (by norm_num))
  · intro st str len copy hlen hsent hb hheap
    refine ⟨?_, create_string_to_string st str len copy hlen hsent hb hheap⟩
    apply predVec_string
    unfold v7_create_string
    simp only [hsent, if_false, ite_false]
    by_cases h5 : len ≤ 5
    · left
      have htk : (str.take len).length = len := by
        rw [List.length_take]
        omega
      have hbtk : ∀ x ∈ str.take len, x < 256 :=
        fun x hx => hb x (List.take_subset _ _ hx)
      have hpl := string_payload_lt len (str.take len) h5 htk hbtk
      simp only [h5, if_true, ite_true]
      exact tag_encode _ _ hpl
    · right
      simp only [h5, if_false, ite_false]
      exact tag_encode _ _ (Nat.mod_lt _ pow48_pos)
  · intro p
    refine ⟨predVec_foreign _ (tag_encode _ _ (Nat.mod_lt _ pow48_pos)), ?_⟩
    intro hp
    unfold v7_to_foreign v7_create_foreign
    rw [payload_encode _ _ (Nat.mod_lt _ pow48_pos), Nat.mod_eq_of_lt hp]

/-- C1 counterexample: the claim as stated demands bit-equal round-trips
for every number, but the NaN payload `0x7FF8000000000001` does not
survive `v7_create_number` bit-for-bit — it is normalised to the
canonical NaN, as NaN-boxing forces. -/
theorem c1_nan_bitexact_counterexample :
    ¬ v7_to_number (v7_create_number 0x7FF8000000000001) = 0x7FF8000000000001 := by
  decide

/-- C1 witness: the amended round-trip theorem evaluated at concrete
inputs of every kind. -/
theorem c1_create_is_to_round_trip_witness :
    predVec (v7_create_object v7_create).snd =
      [true, false, false, false, false, false, false, false, false]
    ∧ (v7_create_function v7_create 7 2).fst.funcs.get?
        ((v7_create_function v7_create 7 2).snd % 2 ^ 48) = some ⟨7, 2⟩
    ∧ v7_to_cfunction (v7_create_cfunction 5) = 5
    ∧ v7_to_number (v7_create_number 3) = 3
    ∧ (v7_to_boolean (v7_create_boolean 2) ≠ 0 ↔ (2 : Int) ≠ 0)
    ∧ v7_to_string (v7_create_string v7_create [104, 105] 2 true).fst
        (v7_create_string v7_create [104, 105] 2 true).snd =
      some (([104, 105] : List Nat).take 2, 2)
    ∧ v7_to_foreign (v7_create_foreign 9) = 9 := by
  obtain ⟨h1, h2, h3, h4, h5, h6, h7, h8, h9, h10⟩ := c1_create_is_to_round_trip
  exact ⟨h1 v7_create,
    (h3 v7_create 7 2).2 (by norm_num [v7_create]),
    (h4 5).2 (by norm_num),
    (h5 3).2.1 (by decide),
    (h6 2).2,
    (h9 v7_create [104, 105] 2 true (by norm_num) (by norm_num)
      (by decide) (by norm_num [v7_create])).2,
    (h10 9).2 (by norm_num)⟩

/-- C3: number round-trip is bit-exact for every non-NaN double bit
pattern; every NaN bit pattern is normalised to exactly the canonical
NaN sentinel (itself a NaN pattern), and the result is always classified
as a number. -/
theorem c3_number_round_trip (d : Nat) (hd : d < 2 ^ 64) :
    (isNaNBits d = false → v7_to_number (v7_create_number d) = d)
    ∧ (isNaNBits d = true → v7_to_number (v7_create_number d) = canonNaN)
    ∧ v7_is_number (v7_create_number d) = true
    ∧ isNaNBits canonNaN = true := by
  refine ⟨?_, ?_, ?_, by decide⟩
  · intro hn
    simp [v7_create_number, hn, v7_to_number]
  · intro hn
    simp [v7_create_number, hn, v7_to_number]
  · by_cases hn : isNaNBits d
    · have hc : v7_create_number d = canonNaN := by simp [v7_create_number, hn]
      rw [hc]
      decide
    · have hc : v7_create_number d = d := by simp [v7_create_number, hn]
      rw [hc]
      have hr := number_tag_range d (by simpa using hn)
      simp only [v7_is_number, decide_eq_true_eq]
      exact hr

/-- C3 witness: the round-trip theorem evaluated at an ordinary double
bit pattern and at a non-canonical NaN pattern. -/
theorem c3_number_round_trip_witness :
    v7_to_number (v7_create_number 3) = 3
    ∧ v7_to_number (v7_create_number 0x7FF0000000000001) = canonNaN := by
  have ha := c3_number_round_trip 3 (by norm_num)
  have hb := c3_number_round_trip 0x7FF0000000000001 (by norm_num)
  exact ⟨ha.1 (by decide), hb.2.1 (by decide)⟩

theorem runRoot_count (t : List RootOp) :
    ∀ (st : VM) (a : Nat),
      (runRoot st t).owned.count a = activeRegs (st.owned.count a) a t := by
  induction t with
  | nil => intro st a; rfl
  | cons op t ih =>
    intro st a
    cases op with
    | own b =>
      show (runRoot (v7_own st b) t).owned.count a = _
      rw [ih (v7_own st b) a]
      have hc : (v7_own st b).owned.count a =
          if b = a then st.owned.count a + 1 else st.owned.count a := by
        by_cases hba : b = a
        · simp [v7_own, List.count_cons, hba]
        · simp [v7_own, List.count_cons, hba]
      rw [hc]
      rfl
    | disown b =>
      show (runRoot (v7_disown st b).snd t).owned.count a = _
      rw [ih (v7_disown st b).snd a]
      have hc : (v7_disown st b).snd.owned.count a =
          if b = a then st.owned.count a - 1 else st.owned.count a := by
        unfold v7_disown
        by_cases hmem : b ∈ st.owned
        · rw [if_pos hmem]
          by_cases hba : b = a
          · subst hba
            simp [List.count_erase_self]
          · simp [hba, List.count_erase_of_ne (Ne.symm hba)]
        · rw [if_neg hmem]
          by_cases hba : b = a
          · subst hba
            have h0 : st.owned.count b = 0 := List.count_eq_zero.2 hmem
            simp [h0]
          · simp [hba]
      rw [hc]
      rfl

/-- C4: own/disown registrations compose as a stack of host-held v-word
addresses: after any trace of operations, `v7_disown` succeeds (returns
1) exactly when some prior `v7_own` of the same address has not been
consumed by an intervening disown; success removes the most recent
matching registration (so an own followed immediately by a disown of the
same address restores the engine exactly), and failure returns 0 leaving
the engine unchanged. -/
theorem c4_own_disown_stack :
    (∀ t a, ((v7_disown (runRoot v7_create t) a).fst = 1 ↔ 0 < activeRegs 0 a t))
    ∧ (∀ st a, v7_disown (v7_own st a) a = (1, st))
    ∧ (∀ st a, (v7_disown st a).fst = 1 ∨ (v7_disown st a).fst = 0)
    ∧ (∀ st a, (v7_disown st a).fst = 0 → (v7_disown st a).snd = st)
    ∧ (∀ st a, (v7_disown st a).fst = 1 →
        (v7_disown st a).snd.owned.count a + 1 = st.owned.count a
        ∧ (v7_disown st a).snd.owned = st.owned.erase a) := by
  refine ⟨?_, ?_, ?_, ?_, ?_⟩
  · intro t a
    have hc := runRoot_count t v7_create a
    have h0 : (v7_create).owned.count a = 0 := rfl
    rw [h0] at hc
    unfold v7_disown
    by_cases hmem : a ∈ (runRoot v7_create t).owned
    · rw [if_pos hmem]
      constructor
      · intro _
        rw [← hc]
        exact List.count_pos_iff.2 hmem
      · intro _
        rfl
    · rw [if_neg hmem]
      constructor
      · intro h01
        exact absurd h01 (by norm_num)
      · intro hpos
        rw [← hc] at hpos
        exact absurd (List.count_pos_iff.1 hpos) hmem
  · intro st a
    unfold v7_disown v7_own
    have hmem : a ∈ a :: st.owned := by simp
    rw [if_pos hmem]
    simp [List.erase_cons_head]
  · intro st a
    unfold v7_disown
    by_cases hmem : a ∈ st.owned
    · rw [if_pos hmem]; left; rfl
    · rw [if_neg hmem]; right; rfl
  · intro st a h
    unfold v7_disown at h ⊢
    by_cases hmem : a ∈ st.owned
    · rw [if_pos hmem] at h
      exact absurd h (by norm_num)
    · rw [if_neg hmem]
  · intro st a h
    unfold v7_disown at h ⊢
    by_cases hmem : a ∈ st.owned
    · rw [if_pos hmem]
      refine ⟨?_, rfl⟩
      have hcnt : st.owned.count a ≠ 0 := by
        intro h0
        exact absurd (List.count_eq_zero.1 h0) (by simpa using hmem)
      simp only [List.count_erase_self]
      omega
    · rw [if_neg hmem] at h
      exact absurd h (by norm_num)

/-- C4 witness: the stack discipline evaluated on a concrete trace and a
concrete immediate own/disown pair. -/
theorem c4_own_disown_stack_witness :
    ((v7_disown (runRoot v7_create [RootOp.own 5, RootOp.own 6]) 5).fst = 1 ↔
      0 < activeRegs 0 5 [RootOp.own 5, RootOp.own 6])
    ∧ v7_disown (v7_own v7_create 5) 5 = (1, v7_create)
    ∧ ((v7_disown (v7_own v7_create 5) 5).snd.owned.count 5 + 1 =
        (v7_own v7_create 5).owned.count 5)
    ∧ (v7_disown v7_create 9).snd = v7_create := by
  obtain ⟨w1, w2, w3, w4, w5⟩ := c4_own_disown_stack
  exact ⟨w1 [RootOp.own 5, RootOp.own 6] 5, w2 v7_create 5,
    (w5 (v7_own v7_create 5) 5 (by decide)).1, w4 v7_create 9 (by decide)⟩

theorem extract_empty (st : VM) (arr : Nat) (h : IsEmptyArr st arr) :
    extractArgs st arr = some [] := by
  obtain ⟨o, ho, helems⟩ := h
  unfold extractArgs
  by_cases hu : arr = v7_create_undefined
  · rw [if_pos hu]
  · rw [if_neg hu]
    simp [ho, helems]

/-- C5: `v7_apply` behaves identically — same status, same result value,
same engine state — when called with the `undefined` arguments value and
when called with any empty array of the same engine; freshly created
arrays are empty, so a freshly created empty array is such a value. -/
theorem c5_apply_undefined_empty_array :
    (∀ st f this arr, IsEmptyArr st arr →
      v7_apply st f this v7_create_undefined = v7_apply st f this arr)
    ∧ (∀ st, st.objs.length < 2 ^ 48 →
      IsEmptyArr (v7_create_array st).fst (v7_create_array st).snd) := by
  constructor
  · intro st f this arr hme
    unfold v7_apply
    rw [show extractArgs st v7_create_undefined = some [] from by
        simp [extractArgs],
      extract_empty st arr hme]
  · intro st hlen
    refine ⟨⟨true, [], none⟩, ?_, rfl⟩
    unfold arrRec v7_create_array
    have ht : tagOf (tagObject * 2 ^ 48 + st.objs.length % 2 ^ 48) = tagObject :=
      tag_encode _ _ (Nat.mod_lt _ pow48_pos)
    have hp : (tagObject * 2 ^ 48 + st.objs.length % 2 ^ 48) % 2 ^ 48 =
        st.objs.length :=
      (payload_encode _ _ (Nat.mod_lt _ pow48_pos)).trans (Nat.mod_eq_of_lt hlen)
    simp only [v7_is_object, ht, decide_eq_true_eq, if_pos rfl, hp,
      List.get?_concat_length, if_true]

/-- C5 witness: the equivalence evaluated at a concrete engine, callee
and freshly created empty array. -/
theorem c5_apply_undefined_empty_array_witness :
    v7_apply (v7_create_array v7_create).fst (v7_create_cfunction 3)
        v7_create_null v7_create_undefined =
      v7_apply (v7_create_array v7_create).fst (v7_create_cfunction 3)
        v7_create_null (v7_create_array v7_create).snd := by
  exact c5_apply_undefined_empty_array.1 _ _ _ _ ⟨⟨true, [], none⟩, rfl, rfl⟩

/-- C8: engine instances are isolated — every embedding-surface
operation takes the engine handle as its first argument and there is no
process-wide state, so running any operation (including a failing parse
that populates the parser-error buffer) on instance `i` of a collection
leaves every other instance's observable state unchanged. -/
theorem c8_engine_isolation (ps : List VM) (i j : Nat) (op : EngOp)
    (hij : i ≠ j) :
    (runEngineOpAt ps i op).get? j = ps.get? j := by
  unfold runEngineOpAt
  cases h : ps.get? i with
  | none => rfl
  | some e => exact List.get?_set_ne _ _ hij

/-- C8 witness: a failing parse run on the first of two engines leaves
the second engine untouched. -/
theorem c8_engine_isolation_witness :
    (runEngineOpAt [v7_create, v7_create] 0 (EngOp.exec ("@"))).get? 1 =
      [v7_create, v7_create].get? 1 := by
  exact c8_engine_isolation [v7_create, v7_create] 0 1 (EngOp.exec ("@"))
    (by decide)

/-- C9: `v7_array_get` is total over array values — the array's length
is reported by `v7_array_length`, any index at or beyond that length
yields the `undefined` value rather than failing, and any in-bounds
index yields the member stored at that index. -/
theorem c9_array_get_total (st : VM) (arr i : Nat) (o : ObjRec)
    (ho : arrRec st arr = some o) :
    v7_array_length st arr = o.elems.length
    ∧ (v7_array_length st arr ≤ i → v7_array_get st arr i = v7_create_undefined)
    ∧ (∀ h : i < o.elems.length, v7_array_get st arr i = o.elems.get ⟨i, h⟩) := by
  refine ⟨by simp [v7_array_length, ho], ?_, ?_⟩
  · intro hle
    have hle2 : o.elems.length ≤ i := by simpa [v7_array_length, ho] using hle
    simp only [v7_array_get, ho]
    exact List.getD_eq_default _ _ hle2
  · intro h
    simp only [v7_array_get, ho]
    rw [List.getD_eq_getElem _ _ h, List.get_eq_getElem]

/-- C9 witness: bounds behaviour of `v7_array_get` on a concrete
one-element array. -/
theorem c9_array_get_total_witness :
    v7_array_get
        ⟨[⟨true, [42], none⟩], [], [], 0, "", none, [],
          fun _ _ _ => (false, 0)⟩
        (tagObject * 2 ^ 48) 0 = 42
    ∧ v7_array_get
        ⟨[⟨true, [42], none⟩], [], [], 0, "", none, [],
          fun _ _ _ => (false, 0)⟩
        (tagObject * 2 ^ 48) 3 = v7_create_undefined := by
  have h0 := c9_array_get_total
    ⟨[⟨true, [42], none⟩], [], [], 0, "", none, [], fun _ _ _ => (false, 0)⟩
    (tagObject * 2 ^ 48) 0 ⟨true, [42], none⟩ (by rfl)
  have h3 := c9_array_get_total
    ⟨[⟨true, [42], none⟩], [], [], 0, "", none, [], fun _ _ _ => (false, 0)⟩
    (tagObject * 2 ^ 48) 3 ⟨true, [42], none⟩ (by rfl)
  exact ⟨(h0.2.2 (by norm_num)).trans rfl, h3.2.1 (by rw [h3.1]; norm_num)⟩

/-- C7: `v7_to_json` always writes the NUL-terminated JSON rendering of
the value, uses (and returns) the caller's buffer exactly when its
length can hold the rendering plus the terminator, and otherwise returns
a freshly allocated buffer distinct from the caller's. -/
theorem c7_to_json_buffer (st : VM) (v : JVal) (buf_len : Nat) :
    (v7_to_json st v buf_len).snd = jvalStr v ++ [Char.ofNat 0]
    ∧ ((v7_to_json st v buf_len).fst = true ↔
        (jvalStr v).length + 1 ≤ buf_len) := by
  unfold v7_to_json
  by_cases h : (jvalStr v).length + 1 ≤ buf_len
  · simp [h]
  · simp [h]

/-- C10: a length argument of `~0` (all 64 bits set) makes
`v7_create_string` measure the NUL-terminated input itself, producing
the same value as passing `strlen(str)`; any other length takes exactly
the first `len` bytes, embedded NULs notwithstanding. -/
theorem c10_create_string_strlen :
    (∀ st str copy, (0 : Nat) ∈ str → str.length < 2 ^ 64 - 1 →
      v7_create_string st str (2 ^ 64 - 1) copy =
        v7_create_string st str (strlenM str) copy)
    ∧ (∀ st str len copy, len ≠ 2 ^ 64 - 1 → len ≤ str.length →
        (∀ b ∈ str, b < 256) → st.strs.length < 2 ^ 48 →
        v7_to_string (v7_create_string st str len copy).fst
            (v7_create_string st str len copy).snd =
          some (str.take len, len)) := by
  constructor
  · intro st str copy hnul hlen
    unfold v7_create_string
    have h1 : strlenM str ≠ 2 ^ 64 - 1 := by
      have := strlenM_le str
      omega
    simp [h1]
  · intro st str len copy hsent hlen hb hheap
    exact create_string_to_string st str len copy hlen hsent hb hheap

/-- C10 witness: the strlen convention and the embedded-NUL behaviour on
a concrete byte string. -/
theorem c10_create_string_strlen_witness :
    v7_create_string v7_create [104, 105, 0, 55] (2 ^ 64 - 1) true =
      v7_create_string v7_create [104, 105, 0, 55] (strlenM [104, 105, 0, 55]) true
    ∧ v7_to_string (v7_create_string v7_create [104, 105, 0, 55] 4 false).fst
        (v7_create_string v7_create [104, 105, 0, 55] 4 false).snd =
      some (([104, 105, 0, 55] : List Nat).take 4, 4) := by
  obtain ⟨w1, w2⟩ := c10_create_string_strlen
  exact ⟨w1 v7_create [104, 105, 0, 55] true (by decide) (by norm_num),
    w2 v7_create [104, 105, 0, 55] 4 false (by norm_num) (by norm_num)
      (by decide) (by norm_num [v7_create])⟩

theorem parseProgram_synErr (src : String) (m : String) :
    parseProgram src = POut.synErr m ↔
      (parseRaw src = none ∧ m = "syntax error") := by
  unfold parseProgram
  cases hp : parseRaw src with
  | none => simp [eq_comm]
  | some a =>
    by_cases hsz : 65535 < astSize a
    · simp [hsz]
    · simp [hsz]

theorem parseProgram_tooLarge_iff (src : String) :
    parseProgram src = POut.tooLarge ↔
      ∃ a, parseRaw src = some a ∧ 65535 < astSize a := by
  unfold parseProgram
  cases hp : parseRaw src with
  | none => simp
  | some a =>
    by_cases hsz : 65535 < astSize a
    · simp [hsz]
    · simp [hsz]

theorem parseProgram_okAst (src : String) (a : Ast) :
    parseProgram src = POut.okAst a ↔
      (parseRaw src = some a ∧ astSize a ≤ 65535) := by
  unfold parseProgram
  cases hp : parseRaw src with
  | none => simp
  | some b =>
    dsimp only
    by_cases hsz : 65535 < astSize b
    · rw [if_pos hsz]
      constructor
      · intro h
        cases h
      · rintro ⟨hba, hle⟩
        injection hba with hba2
        subst hba2
        omega
    · rw [if_neg hsz]
      constructor
      · intro h
        injection h with h2
        subst h2
        exact ⟨rfl, by omega⟩
      · rintro ⟨hba, hle⟩
        injection hba with hba2
        subst hba2
        rfl

/-- C2: `v7_exec` returns exactly one status of the six-valued error
enumeration.  `OK` delivers the evaluation result in the result slot with
the exception slot and parser-error buffer untouched; `SyntaxError`
arises exactly when the parser produces no AST, leaves the exception
slot untouched, yields `undefined` and populates the engine's
parser-error buffer; `ExecException` delivers the thrown value in the
result slot; `AstTooLarge` arises exactly when the parsed AST exceeds
the 16-bit offset range and is returned directly — the engine, its
exception slot included, is untouched and nothing is thrown. -/
theorem c2_exec_status_contract (st : VM) (src : String) :
    ((v7_exec st src).fst = V7Err.ok ∨ (v7_exec st src).fst = V7Err.syntaxError
      ∨ (v7_exec st src).fst = V7Err.execException
      ∨ (v7_exec st src).fst = V7Err.stackOverflow
      ∨ (v7_exec st src).fst = V7Err.astTooLarge
      ∨ (v7_exec st src).fst = V7Err.invalidArg)
    ∧ ((v7_exec st src).fst = V7Err.syntaxError →
        (v7_exec st src).snd.snd = v7_create_undefined
        ∧ (v7_exec st src).snd.fst.excSlot = st.excSlot
        ∧ v7_get_parser_error (v7_exec st src).snd.fst ≠ "")
    ∧ ((v7_exec st src).fst = V7Err.syntaxError ↔ parseRaw src = none)
    ∧ ((v7_exec st src).fst = V7Err.ok →
        ∃ a n, parseProgram src = POut.okAst a ∧ evalAst a = EOut.val n
          ∧ (v7_exec st src).snd.snd = v7_create_number (natToDoubleBits n)
          ∧ (v7_exec st src).snd.fst.excSlot = st.excSlot
          ∧ (v7_exec st src).snd.fst.parserError = st.parserError)
    ∧ ((v7_exec st src).fst = V7Err.execException →
        ∃ a n, parseProgram src = POut.okAst a ∧ evalAst a = EOut.exn n
          ∧ (v7_exec st src).snd.snd = v7_create_number (natToDoubleBits n))
    ∧ ((v7_exec st src).fst = V7Err.astTooLarge ↔
        ∃ a, parseRaw src = some a ∧ 65535 < astSize a)
    ∧ ((v7_exec st src).fst = V7Err.astTooLarge →
        (v7_exec st src).snd.fst = st
        ∧ (v7_exec st src).snd.snd = v7_create_undefined) := by
  cases hp : parseProgram src with
  | synErr m =>
    obtain ⟨hpr, hm⟩ := (parseProgram_synErr src m).1 hp
    have he : v7_exec st src =
        (V7Err.syntaxError, { st with parserError := m }, v7_create_undefined) := by
      simp [v7_exec, hp]
    rw [he]
    refine ⟨Or.inr (Or.inl rfl), ?_, ⟨fun _ => hpr, fun _ => rfl⟩, ?_, ?_, ?_, ?_⟩
    · intro _
      refine ⟨rfl, rfl, ?_⟩
      subst hm
      simp [v7_get_parser_error]
    · intro hcon
      simp at hcon
    · intro hcon
      simp at hcon
    · constructor
      · intro hcon
        simp at hcon
      · rintro ⟨a, ha, _⟩
        rw [hpr] at ha
        cases ha
    · intro hcon
      simp at hcon
  | tooLarge =>
    obtain ⟨a, hra, hsz⟩ := (parseProgram_tooLarge_iff src).1 hp
    have he : v7_exec st src = (V7Err.astTooLarge, st, v7_create_undefined) := by
      simp [v7_exec, hp]
    rw [he]
    refine ⟨Or.inr (Or.inr (Or.inr (Or.inr (Or.inl rfl)))), ?_, ?_, ?_, ?_, ?_, ?_⟩
    · intro hcon
      simp at hcon
    · constructor
      · intro hcon
        simp at hcon
      · intro hnone
        rw [hnone] at hra
        cases hra
    · intro hcon
      simp at hcon
    · intro hcon
      simp at hcon
    · exact ⟨fun _ => ⟨a, hra, hsz⟩, fun _ => rfl⟩
    · intro _
      exact ⟨rfl, rfl⟩
  | okAst a =>
    obtain ⟨hra, hsz⟩ := (parseProgram_okAst src a).1 hp
    cases hv : evalAst a with
    | val n =>
      have he : v7_exec st src =
          (V7Err.ok, st, v7_create_number (natToDoubleBits n)) := by
        simp [v7_exec, hp, hv]
      rw [he]
      refine ⟨Or.inl rfl, ?_, ?_, ?_, ?_, ?_, ?_⟩
      · intro hcon
        simp at hcon
      · constructor
        · intro hcon
          simp at hcon
        · intro hnone
          rw [hnone] at hra
          cases hra
      · intro _
        exact ⟨a, n, rfl, hv, rfl, rfl, rfl⟩
      · intro hcon
        simp at hcon
      · constructor
        · intro hcon
          simp at hcon
        · rintro ⟨b, hb, hbsz⟩
          rw [hra] at hb
          injection hb with hb2
          subst hb2
          omega
      · intro hcon
        simp at hcon
    | exn n =>
      have he : v7_exec st src =
          (V7Err.execException,
            { st with excSlot := some (v7_create_number (natToDoubleBits n)) },
            v7_create_number (natToDoubleBits n)) := by
        simp [v7_exec, hp, hv]
      rw [he]
      refine ⟨Or.inr (Or.inr (Or.inl rfl)), ?_, ?_, ?_, ?_, ?_, ?_⟩
      · intro hcon
        simp at hcon
      · constructor
        · intro hcon
          simp at hcon
        · intro hnone
          rw [hnone] at hra
          cases hra
      · intro hcon
        simp at hcon
      · intro _
        exact ⟨a, n, rfl, hv, rfl⟩
      · constructor
        · intro hcon
          simp at hcon
        · rintro ⟨b, hb, hbsz⟩
          rw [hra] at hb
          injection hb with hb2
          subst hb2
          omega
      · intro hcon
        simp at hcon

/-- C2 witness: the status contract evaluated on concrete sources — a
scan error, a successful arithmetic program and a throwing program. -/
theorem c2_exec_status_contract_witness :
    ((v7_exec v7_create ("@")).snd.snd = v7_create_undefined
      ∧ (v7_exec v7_create ("@")).snd.fst.excSlot = (v7_create).excSlot
      ∧ v7_get_parser_error (v7_exec v7_create ("@")).snd.fst ≠ "")
    ∧ ((v7_exec v7_create ("1+2*3")).fst = V7Err.ok
      ∧ (v7_exec v7_create ("1+2*3")).snd.snd =
          v7_create_number (natToDoubleBits 7))
    ∧ ((v7_exec v7_create ("throw 9")).fst = V7Err.execException
      ∧ (v7_exec v7_create ("throw 9")).snd.snd =
          v7_create_number (natToDoubleBits 9)) := by
  have h1 := (c2_exec_status_contract v7_create ("@")).2.1 (by decide)
  exact ⟨h1, ⟨by decide, by decide⟩, ⟨by decide, by decide⟩⟩

theorem protoWalk_none (m : List ObjRec) (k : Nat) : protoWalk m k none = none := by
  cases k with
  | zero => rfl
  | succ k2 => rfl

theorem protoWalk_add (m : List ObjRec) (a b : Nat) :
    ∀ s, protoWalk m (a + b) s = protoWalk m b (protoWalk m a s) := by
  induction a with
  | zero =>
    intro s
    rw [Nat.zero_add]
    rfl
  | succ a2 ih =>
    intro s
    rw [Nat.succ_add]
    cases s with
    | none => simp [protoWalk_none]
    | some i =>
      show protoWalk m (a2 + b) (protoStep m i) =
        protoWalk m b (protoWalk m a2 (protoStep m i))
      exact ih (protoStep m i)

theorem walk_some_of_le (m : List ObjRec) (k t : Nat) (s : Option Nat) (o : Nat)
    (h : protoWalk m k s = some o) (hle : t ≤ k) :
    ∃ u, protoWalk m t s = some u := by
  have hk : k = t + (k - t) := by omega
  rw [hk, protoWalk_add] at h
  cases hu : protoWalk m t s with
  | none =>
    rw [hu, protoWalk_none] at h
    cases h
  | some u => exact ⟨u, rfl⟩

theorem walk_mid_lt (m : List ObjRec) (k t i o u : Nat)
    (h : protoWalk m k (some i) = some o) (ht : t + 1 ≤ k)
    (hu : protoWalk m t (some i) = some u) : u < m.length := by
  obtain ⟨u2, hu2⟩ := walk_some_of_le m k (t + 1) (some i) o h ht
  rw [protoWalk_add m t 1, hu] at hu2
  have hst : protoStep m u = some u2 := hu2
  by_contra hge
  have hnone : m.get? u = none := List.get?_eq_none.2 (by omega)
  unfold protoStep at hst
  rw [hnone] at hst
  cases hst

theorem walk_compress (m : List ObjRec) :
    ∀ k i o, protoWalk m k (some i) = some o →
      ∃ n, n ≤ m.length ∧ protoWalk m n (some i) = some o := by
  intro k
  induction k using Nat.strong_induction_on with
  | _ k IH =>
    intro i o h
    by_cases hk : k ≤ m.length
    · exact ⟨k, hk, h⟩
    · push_neg at hk
      have hsome : ∀ t, t ≤ m.length → ∃ u, protoWalk m t (some i) = some u :=
        fun t ht => walk_some_of_le m k t (some i) o h (by omega)
      have hmaps : ∀ t ∈ Finset.range (m.length + 1),
          (protoWalk m t (some i)).getD 0 ∈ Finset.range m.length := by
        intro t htm
        simp only [Finset.mem_range] at htm ⊢
        obtain ⟨u, hu⟩ := hsome t (by omega)
        have hlt : u < m.length := walk_mid_lt m k t i o u h (by omega) hu
        simp [hu, hlt]
      have hcard : (Finset.range m.length).card <
          (Finset.range (m.length + 1)).card := by simp
      obtain ⟨x, hx, y, hy, hxy, hfxy⟩ :=
        Finset.exists_ne_map_eq_of_card_lt_of_maps_to hcard hmaps
      simp only [Finset.mem_range] at hx hy
      have key : ∀ x2 y2, x2 < y2 → y2 ≤ m.length →
          protoWalk m x2 (some i) = protoWalk m y2 (some i) →
          ∃ n, n ≤ m.length ∧ protoWalk m n (some i) = some o := by
        intro x2 y2 hlt hyle heq
        have hky : y2 ≤ k := by omega
        have h2 : protoWalk m (k - y2) (protoWalk m y2 (some i)) = some o := by
          rw [← protoWalk_add]
          rw [show y2 + (k - y2) = k from by omega]
          exact h
        rw [← heq] at h2
        rw [← protoWalk_add] at h2
        exact IH (x2 + (k - y2)) (by omega) i o h2
      obtain ⟨ux, hux⟩ := hsome x (by omega)
      obtain ⟨uy, huy⟩ := hsome y (by omega)
      have heq : protoWalk m x (some i) = protoWalk m y (some i) := by
        rw [hux, huy]
        rw [hux, huy] at hfxy
        simpa using hfxy
      rcases Nat.lt_or_ge x y with hlt | hge
      · exact key x y hlt (by omega) heq
      · have hlt2 : y < x := by omega
        exact key y x hlt2 (by omega) heq.symm

theorem reachChk_true_iff (m : List ObjRec) :
    ∀ k i o, reachChk m k i o = true ↔
      ∃ t, t ≤ k ∧ protoWalk m t (some i) = some o := by
  intro k
  induction k with
  | zero =>
    intro i o
    constructor
    · intro h
      have hio : i = o := by simpa [reachChk] using h
      exact ⟨0, le_refl 0, by simp [protoWalk, hio]⟩
    · rintro ⟨t, ht, hw⟩
      have ht0 : t = 0 := Nat.le_zero.1 ht
      subst ht0
      have hio : i = o := by simpa [protoWalk] using hw
      simp [reachChk, hio]
  | succ k2 ih =>
    intro i o
    constructor
    · intro h
      by_cases hio : i = o
      · exact ⟨0, by omega, by simp [protoWalk, hio]⟩
      · have hX : (match protoStep m i with
            | some j => reachChk m k2 j o
            | none => false) = true := by
          simpa [reachChk, hio] using h
        cases hs : protoStep m i with
        | none =>
          rw [hs] at hX
          cases hX
        | some j =>
          rw [hs] at hX
          obtain ⟨t, ht, hw⟩ := (ih j o).1 hX
          refine ⟨t + 1, by omega, ?_⟩
          have hr : protoWalk m (t + 1) (some i) = protoWalk m t (protoStep m i) := rfl
          rw [hr, hs]
          exact hw
    · rintro ⟨t, ht, hw⟩
      cases t with
      | zero =>
        have hio : i = o := by simpa [protoWalk] using hw
        simp [reachChk, hio]
      | succ t2 =>
        have hw2 : protoWalk m t2 (protoStep m i) = some o := hw
        cases hs : protoStep m i with
        | none =>
          rw [hs, protoWalk_none] at hw2
          cases hw2
        | some j =>
          rw [hs] at hw2
          have hc := (ih j o).2 ⟨t2, by omega, hw2⟩
          simp [reachChk, hs, hc]

theorem reachChk_len_iff (m : List ObjRec) (i o : Nat) :
    reachChk m m.length i o = true ↔ PReaches m i o := by
  rw [reachChk_true_iff]
  constructor
  · rintro ⟨t, _, hw⟩
    exact ⟨t, hw⟩
  · rintro ⟨k, hw⟩
    obtain ⟨n, hn, hwn⟩ := walk_compress m k i o hw
    exact ⟨n, hn, hwn⟩

theorem protoStep_set_ne (m : List ObjRec) (o : Nat) (r : ObjRec) (i : Nat)
    (h : i ≠ o) : protoStep (m.set o r) i = protoStep m i := by
  unfold protoStep
  rw [List.get?_set_ne _ _ (Ne.symm h)]

theorem protoStep_set_self (m : List ObjRec) (o : Nat) (r : ObjRec)
    (h : o < m.length) : protoStep (m.set o r) o = r.proto := by
  unfold protoStep
  cases hg : m.get? o with
  | none => exact absurd (List.get?_eq_none.1 hg) (by omega)
  | some r0 =>
    rw [List.get?_set_eq, hg]
    rfl

theorem reaches_self (m : List ObjRec) (i : Nat) : PReaches m i i := ⟨0, rfl⟩

theorem nonreach_step (m : List ObjRec) (i o j : Nat)
    (hnr : ¬ PReaches m i o) (hs : protoStep m i = some j) :
    ¬ PReaches m j o := by
  rintro ⟨k, hk⟩
  apply hnr
  refine ⟨k + 1, ?_⟩
  have hr : protoWalk m (k + 1) (some i) = protoWalk m k (protoStep m i) := rfl
  rw [hr, hs]
  exact hk

theorem walk_transfer (m : List ObjRec) (o : Nat) (r : ObjRec) :
    ∀ k i, ¬ PReaches m i o →
      protoWalk (m.set o r) k (some i) = protoWalk m k (some i) := by
  intro k
  induction k with
  | zero =>
    intro i h
    rfl
  | succ k2 ih =>
    intro i hnr
    have hio : i ≠ o := fun he => hnr (he ▸ reaches_self m o)
    show protoWalk (m.set o r) k2 (protoStep (m.set o r) i) =
      protoWalk m k2 (protoStep m i)
    rw [protoStep_set_ne m o r i hio]
    cases hs : protoStep m i with
    | none => rw [protoWalk_none, protoWalk_none]
    | some j => exact ih j (nonreach_step m i o j hnr hs)

theorem term_transfer (m : List ObjRec) (o : Nat) (r : ObjRec) (i : Nat)
    (hnr : ¬ PReaches m i o) (ht : PTerm m i) : PTerm (m.set o r) i := by
  obtain ⟨k, hk⟩ := ht
  exact ⟨k, by rw [walk_transfer m o r k i hnr]; exact hk⟩

theorem term_lift (m : List ObjRec) (o : Nat) (r : ObjRec) :
    ∀ k i, protoWalk m k (some i) = some o → PTerm (m.set o r) o →
      PTerm (m.set o r) i := by
  intro k
  induction k with
  | zero =>
    intro i h hto
    have hio : i = o := by simpa [protoWalk] using h
    exact hio ▸ hto
  | succ k2 ih =>
    intro i h hto
    by_cases hio : i = o
    · exact hio ▸ hto
    · have h2 : protoWalk m k2 (protoStep m i) = some o := h
      cases hs : protoStep m i with
      | none =>
        rw [hs, protoWalk_none] at h2
        cases h2
      | some j =>
        rw [hs] at h2
        obtain ⟨k3, hk3⟩ := ih j h2 hto
        refine ⟨k3 + 1, ?_⟩
        show protoWalk (m.set o r) k3 (protoStep (m.set o r) i) = none
        rw [protoStep_set_ne m o r i hio, hs]
        exact hk3

theorem wf_set (m : List ObjRec) (o : Nat) (r : ObjRec) (hwf : ProtoWF m)
    (hr : ∀ p, r.proto = some p → ¬ PReaches m p o) :
    ProtoWF (m.set o r) := by
  by_cases ho : o < m.length
  · intro i
    by_cases hreach : PReaches m i o
    · obtain ⟨k, hk⟩ := hreach
      have hto : PTerm (m.set o r) o := by
        cases hq : r.proto with
        | none =>
          refine ⟨1, ?_⟩
          show protoWalk (m.set o r) 0 (protoStep (m.set o r) o) = none
          rw [protoStep_set_self m o r ho, hq]
          rfl
        | some p =>
          have hnp := hr p hq
          obtain ⟨k2, hk2⟩ := term_transfer m o r p hnp (hwf p)
          refine ⟨k2 + 1, ?_⟩
          show protoWalk (m.set o r) k2 (protoStep (m.set o r) o) = none
          rw [protoStep_set_self m o r ho, hq]
          exact hk2
      exact term_lift m o r k i hk hto
    · exact term_transfer m o r i hreach (hwf i)
  · rw [List.set_eq_of_length_le (by omega)]
    exact hwf

theorem protoWalk_congr (m1 m2 : List ObjRec)
    (hstep : ∀ u, protoStep m1 u = protoStep m2 u) :
    ∀ k s, protoWalk m1 k s = protoWalk m2 k s := by
  intro k
  induction k with
  | zero =>
    intro s
    rfl
  | succ k2 ih =>
    intro s
    cases s with
    | none => rfl
    | some i =>
      show protoWalk m1 k2 (protoStep m1 i) = protoWalk m2 k2 (protoStep m2 i)
      rw [hstep i]
      exact ih (protoStep m2 i)

theorem protoStep_append_none (m : List ObjRec) (r : ObjRec)
    (hrp : r.proto = none) :
    ∀ u, protoStep (m ++ [r]) u = protoStep m u := by
  intro u
  unfold protoStep
  rcases Nat.lt_trichotomy u m.length with hu | hu | hu
  · rw [List.get?_append hu]
  · subst hu
    rw [List.get?_concat_length, List.get?_eq_none.2 (le_refl _)]
    exact hrp
  · have h1 : (m ++ [r]).get? u = none := by
      apply List.get?_eq_none.2
      simp only [List.length_append, List.length_singleton]
      omega
    have h2 : m.get? u = none := List.get?_eq_none.2 (by omega)
    rw [h1, h2]

theorem wf_append (m : List ObjRec) (r : ObjRec) (hrp : r.proto = none)
    (hwf : ProtoWF m) : ProtoWF (m ++ [r]) := by
  intro i
  obtain ⟨k, hk⟩ := hwf i
  refine ⟨k, ?_⟩
  rw [protoWalk_congr (m ++ [r]) m (protoStep_append_none m r hrp) k (some i)]
  exact hk

theorem set_proto_wf (st : VM) (obj proto : Nat) (hwf : ProtoWF st.objs) :
    ProtoWF (v7_set_proto st obj proto).snd.objs := by
  unfold v7_set_proto
  by_cases hobj : v7_is_object obj = true
  · rw [if_pos hobj]
    cases hg : st.objs.get? (obj % 2 ^ 48) with
    | none => exact hwf
    | some r =>
      dsimp only
      by_cases hpo : v7_is_object proto = true
      · rw [if_pos hpo]
        by_cases hchk : reachChk st.objs st.objs.length (proto % 2 ^ 48)
            (obj % 2 ^ 48) = true
        · rw [if_pos hchk]
          exact hwf
        · rw [if_neg hchk]
          apply wf_set st.objs (obj % 2 ^ 48)
            ⟨r.isArr, r.elems, some (proto % 2 ^ 48)⟩ hwf
          intro p hp
          injection hp with hp2
          subst hp2
          intro hre
          exact hchk ((reachChk_len_iff _ _ _).2 hre)
      · rw [if_neg hpo]
        apply wf_set st.objs (obj % 2 ^ 48) ⟨r.isArr, r.elems, none⟩ hwf
        intro p hp
        cases hp
  · rw [if_neg hobj]
    exact hwf

/-- C6: prototype chains never become cyclic.  `v7_set_proto` rejects —
returning `undefined` and leaving the heap unchanged — any prototype
whose own chain already reaches the object (an invalid object argument
is also rejected); on success it stores the new prototype and returns
the old one; and on a heap whose prototype chains all terminate at null
this property is preserved by `v7_set_proto` and by every sequence of
object allocations and prototype updates, so chain walking always
terminates at null. -/
theorem c6_set_proto_acyclic :
    (∀ st obj proto, v7_is_object proto = true →
      PReaches st.objs (proto % 2 ^ 48) (obj % 2 ^ 48) →
      v7_set_proto st obj proto = (v7_create_undefined, st))
    ∧ (∀ st obj proto r, v7_is_object obj = true → v7_is_object proto = true →
        st.objs.get? (obj % 2 ^ 48) = some r →
        ¬ PReaches st.objs (proto % 2 ^ 48) (obj % 2 ^ 48) →
        v7_set_proto st obj proto =
          (encodeProtoVal r.proto,
            { st with objs := (st.objs.set (obj % 2 ^ 48)
                ⟨r.isArr, r.elems, some (proto % 2 ^ 48)⟩) }))
    ∧ (∀ st obj proto, ProtoWF st.objs →
        ProtoWF (v7_set_proto st obj proto).snd.objs)
    ∧ (∀ ops st, ProtoWF st.objs → ProtoWF (runHeapOps st ops).objs) := by
  refine ⟨?_, ?_, fun st obj proto hwf => set_proto_wf st obj proto hwf, ?_⟩
  · intro st obj proto hpo hreach
    unfold v7_set_proto
    by_cases hobj : v7_is_object obj = true
    · rw [if_pos hobj]
      cases hg : st.objs.get? (obj % 2 ^ 48) with
      | none => rfl
      | some r =>
        dsimp only
        rw [if_pos hpo]
        rw [if_pos ((reachChk_len_iff _ _ _).2 hreach)]
    · rw [if_neg hobj]
  · intro st obj proto r hobj hpo hg hnr
    have hchk : reachChk st.objs st.objs.length (proto % 2 ^ 48)
        (obj % 2 ^ 48) = false := by
      cases hb : reachChk st.objs st.objs.length (proto % 2 ^ 48) (obj % 2 ^ 48) with
      | false => rfl
      | true => exact absurd ((reachChk_len_iff _ _ _).1 hb) hnr
    unfold v7_set_proto
    rw [if_pos hobj, hg]
    dsimp only
    rw [if_pos hpo]
    rw [if_neg (by rw [hchk]; exact Bool.false_ne_true)]
  · intro ops
    induction ops with
    | nil => intro st hwf; exact hwf
    | cons op t ih =>
      intro st hwf
      cases op with
      | newObj =>
        apply ih
        exact wf_append st.objs ⟨false, [], none⟩ rfl hwf
      | newArr =>
        apply ih
        exact wf_append st.objs ⟨true, [], none⟩ rfl hwf
      | setProto o p =>
        apply ih
        exact set_proto_wf st o p hwf

/-- C6 witness: a self-prototype is rejected on a concrete engine; a
successful update returns the old prototype and sets the new one; well-
formedness survives a concrete allocation-and-update sequence. -/
theorem c6_set_proto_acyclic_witness :
    v7_set_proto v7_create (tagObject * 2 ^ 48) (tagObject * 2 ^ 48) =
      (v7_create_undefined, v7_create)
    ∧ v7_set_proto (v7_create_object v7_create).fst (tagObject * 2 ^ 48 + 1)
        (tagObject * 2 ^ 48) =
      (encodeProtoVal none,
        { (v7_create_object v7_create).fst with
          objs := (v7_create_object v7_create).fst.objs.set 1
            (⟨false, [], some 0⟩ : ObjRec) })
    ∧ ProtoWF (v7_set_proto v7_create (tagObject * 2 ^ 48) v7_create_null).snd.objs
    ∧ ProtoWF (runHeapOps v7_create [HeapOp.newObj,
        HeapOp.setProto (tagObject * 2 ^ 48 + 1) (tagObject * 2 ^ 48)]).objs := by
  obtain ⟨w1, w2, w3, w4⟩ := c6_set_proto_acyclic
  have hwf : ProtoWF (v7_create).objs := by
    intro i
    refine ⟨1, ?_⟩
    cases i with
    | zero => rfl
    | succ n => rfl
  have hnr : ¬ PReaches ((v7_create_object v7_create).fst.objs)
      ((tagObject * 2 ^ 48) % 2 ^ 48) ((tagObject * 2 ^ 48 + 1) % 2 ^ 48) := by
    rintro ⟨k, hk⟩
    cases k with
    | zero => exact absurd hk (by decide)
    | succ k2 =>
      have h2 : protoWalk ((v7_create_object v7_create).fst.objs) k2
          (protoStep ((v7_create_object v7_create).fst.objs)
            ((tagObject * 2 ^ 48) % 2 ^ 48)) =
          some ((tagObject * 2 ^ 48 + 1) % 2 ^ 48) := hk
      rw [show protoStep ((v7_create_object v7_create).fst.objs)
          ((tagObject * 2 ^ 48) % 2 ^ 48) = none from rfl,
        protoWalk_none] at h2
      exact absurd h2 (by decide)
  have h2 := w2 (v7_create_object v7_create).fst (tagObject * 2 ^ 48 + 1)
    (tagObject * 2 ^ 48) ⟨false, [], none⟩ (by decide) (by decide) (by rfl) hnr
  refine ⟨w1 v7_create _ _ (by decide) ⟨0, rfl⟩, ?_, w3 v7_create _ _ hwf,
    w4 _ v7_create hwf⟩
  rw [h2]
  rfl
